import Mathlib

/-!
# cos: a verification development

A shallow embedding of the parts of `dmolesUC3/cos` that build and launch the
test suite (`cmd/suite.go`), the `crvd` command (`cmd/crvd.go`), the Unicode
case lists (`internal/suite/unicode.go`) and the elapsed-time formatter
(`internal/logging/pretty.go`), followed by theorems about them.

Conventions of the embedding:

* Go `int64` values are `Int`; Go `uint64` values are `Nat` reduced modulo
  `2 ^ 64` where a conversion happens.  Go's `/` and `%` on signed integers
  truncate toward zero, so they are `Int.tdiv` and `Int.tmod`.
* A Go `error` is its message (`String`); a nil error is `none`.
* A Go `map[string]T` is the list of its entries in the order in which a
  `range` loop happens to visit them; a well-formed map has pairwise distinct
  keys.
* Calls to collaborators whose code is outside the embedded files are
  fields of an environment record, and the calls that matter are logged in
  a trace of events.
-/

namespace Cos

/-! ## `internal/logging/pretty.go` -/

namespace Logging

/-- Go: `nsPerMilli = int64(time.Millisecond)`. -/
def nsPerMilli : Int := 1000000

/-- Go: `nsPerSecond = int64(time.Second)`. -/
def nsPerSecond : Int := 1000000000

/-- Go: `nsPerMinute = int64(time.Minute)`. -/
def nsPerMinute : Int := 60000000000

/-- Go: `nsPerHour = int64(time.Hour)`. -/
def nsPerHour : Int := 3600000000000

/-- The verb `%d` of `fmt.Sprintf` applied to an `int64`: the decimal numeral,
with a leading minus sign for a negative number. -/
def fmtD (n : Int) : String := toString n

/-- The four `return` statements of `FormatNanos`, each with the numbers it
hands to `fmt.Sprintf`. -/
inductive NanosForm where
  | hoursMinutesSeconds (hours minutes seconds : Int)
  | minutesSeconds (minutes seconds : Int)
  | secondsOnly (seconds : Int)
  | millisOnly (millis : Int)
  deriving DecidableEq, Repr

/-- The format strings of `FormatNanos`:
`"%dh %dm %ds"`, `"%dm %ds"`, `"%ds"` and `"%dms"`. -/
def NanosForm.render : NanosForm → String
  | .hoursMinutesSeconds h m s => fmtD h ++ "h " ++ fmtD m ++ "m " ++ fmtD s ++ "s"
  | .minutesSeconds m s => fmtD m ++ "m " ++ fmtD s ++ "s"
  | .secondsOnly s => fmtD s ++ "s"
  | .millisOnly n => fmtD n ++ "ms"

/-- Go: `hours := ns / nsPerHour`. -/
def hoursOf (ns : Int) : Int := ns.tdiv nsPerHour

/-- Go: `remainder := ns % nsPerHour; minutes := remainder / nsPerMinute`. -/
def minutesOf (ns : Int) : Int :=
  let remainder := ns.tmod nsPerHour
  remainder.tdiv nsPerMinute

/-- Go: `remainder = ns % nsPerMinute; seconds := remainder / nsPerSecond`. -/
def secondsOf (ns : Int) : Int :=
  let remainder := ns.tmod nsPerMinute
  remainder.tdiv nsPerSecond

/-- The branch structure of `FormatNanos`: which `return` is reached, and with
which arguments. -/
def formatNanosForm (ns : Int) : NanosForm :=
  let hours := hoursOf ns
  let minutes := minutesOf ns
  let seconds := secondsOf ns
  if hours > 0 then
    .hoursMinutesSeconds hours minutes seconds
  else if minutes > 0 then
    .minutesSeconds minutes seconds
  else if seconds > 0 then
    .secondsOnly seconds
  else
    let millis := ns.tdiv nsPerMilli
    .millisOnly millis

/-- Go: `func FormatNanos(ns int64) string`. -/
def FormatNanos (ns : Int) : String := (formatNanosForm ns).render

/-- The format the specification gives for an elapsed time: `XhYmZs`, `YmZs`,
`Zs` or `Nms` by magnitude, the letters directly after the numerals and nothing
between the components.  This definition follows the words of the
specification, not the code. -/
def specFormatNanos (ns : Int) : String :=
  if 3600000000000 ≤ ns then
    toString (ns / 3600000000000) ++ "h" ++ toString (ns % 3600000000000 / 60000000000) ++ "m"
      ++ toString (ns % 60000000000 / 1000000000) ++ "s"
  else if 60000000000 ≤ ns then
    toString (ns / 60000000000) ++ "m" ++ toString (ns % 60000000000 / 1000000000) ++ "s"
  else if 1000000000 ≤ ns then
    toString (ns / 1000000000) ++ "s"
  else
    toString (ns / 1000000) ++ "ms"

/-- The format the code produces, stated by magnitude: as `specFormatNanos`,
with one blank after `h` and after `m` where another component follows. -/
def spacedFormatNanos (ns : Int) : String :=
  if 3600000000000 ≤ ns then
    toString (ns / 3600000000000) ++ "h " ++ toString (ns % 3600000000000 / 60000000000) ++ "m "
      ++ toString (ns % 60000000000 / 1000000000) ++ "s"
  else if 60000000000 ≤ ns then
    toString (ns / 60000000000) ++ "m " ++ toString (ns % 60000000000 / 1000000000) ++ "s"
  else if 1000000000 ≤ ns then
    toString (ns / 1000000000) ++ "s"
  else
    toString (ns / 1000000) ++ "ms"

end Logging

/-! ## `internal/suite/unicode.go` -/

namespace Suite

/-- A Go `map[string]T`: its entries, in the order in which a `range` loop over
the map visits them.  Go leaves that order unspecified, so theorems about code
that ranges over a map quantify over every order.  In a well-formed map the keys
are pairwise distinct. -/
abbrev GoMap (β : Type) := List (String × β)

/-- Go: `m[k]`, the value stored under `k`, or the zero value of the element
type when `k` is absent. -/
def GoMap.get {β : Type} [Inhabited β] (m : GoMap β) (k : String) : β :=
  match m.find? (fun e => e.1 == k) with
  | some e => e.2
  | none => default

/-- Go: `m[k] = v`, replacing the value of an existing key and adding an entry
for a new one. -/
def GoMap.set {β : Type} (m : GoMap β) (k : String) (v : β) : GoMap β :=
  if m.any (fun e => e.1 == k) then
    m.map (fun e => if e.1 == k then (k, v) else e)
  else
    m ++ [(k, v)]

/-- The keys of a map, in iteration order: the result of
`for name := range m { names = append(names, name) }`. -/
def GoMap.rangeKeys {β : Type} (m : GoMap β) : List String := m.map Prod.fst

/-- Well-formedness of a map: no key occurs twice. -/
def GoMap.WF {β : Type} (m : GoMap β) : Prop := (m.map Prod.fst).Nodup

instance {β : Type} (m : GoMap β) : Decidable m.WF := by
  unfold GoMap.WF; infer_instance

/-- Lexicographic comparison of two sequences of code points. -/
def codesLe : List Nat → List Nat → Bool
  | [], _ => true
  | _ :: _, [] => false
  | a :: as, b :: bs => a < b || (a == b && codesLe as bs)

/-- Go: `a <= b` on strings.  Go compares strings byte by byte; on valid UTF-8
that is the lexicographic order of the code point sequences. -/
def strLe (a b : String) : Bool :=
  codesLe (a.toList.map Char.toNat) (b.toList.map Char.toNat)

/-- The relation `a <= b` on strings. -/
def StrLe (a b : String) : Prop := strLe a b = true

/-- The relation `a < b` on strings: `b <= a` fails. -/
def StrLt (a b : String) : Prop := strLe b a = false

instance : DecidableRel StrLe := fun a b => by unfold StrLe; infer_instance

instance : DecidableRel StrLt := fun a b => by unfold StrLt; infer_instance

/-- Go: `sort.Strings`, which sorts a slice of strings in increasing order.
The library routine is modelled by insertion sort: the order is linear, so
every sorting routine returns the same slice. -/
def sortStrings (l : List String) : List String := l.insertionSort StrLe

/-- A `*unicode.RangeTable`.  The code compares these pointers by identity and
hands them on unopened, so a pointer is its address; `0` is `nil`. -/
abbrev RangeTablePtr := Nat

/-- Modelled from the spec: the type `Case` and its constructors
`NewRangeTableCase`, `NewBinarySearchSeqCase` and `NewSeqCase` are declared
outside the embedded files.  A case is the record of the constructor call that
made it; `magnitude` stands for the bisecting-over-magnitude cases that
`FileSizeCases` and `FileCountCases` return. -/
inductive Case where
  | rangeTable (pfx : String) (name : String) (rt : RangeTablePtr)
  | binarySearchSeq (pfx : String) (name : String) (seq : List String)
  | seq (pfx : String) (name : String) (seq : List String) (expectFailure : Bool)
  | magnitude (label : String) (max : Nat)
  deriving DecidableEq, Repr

/-- Go: `NewRangeTableCase(prefix, rangeName, rt)`. -/
def NewRangeTableCase (pfx : String) (rangeName : String) (rt : RangeTablePtr) : Case :=
  .rangeTable pfx rangeName rt

/-- Go: `NewBinarySearchSeqCase(prefix, seqName, seq)`. -/
def NewBinarySearchSeqCase (pfx : String) (seqName : String) (seq : List String) : Case :=
  .binarySearchSeq pfx seqName seq

/-- Go: `NewSeqCase(prefix, seqName, seq, expectFailure)`. -/
def NewSeqCase (pfx : String) (seqName : String) (seq : List String) (expectFailure : Bool) :
    Case :=
  .seq pfx seqName seq expectFailure

/-- Modelled from the spec: the label of a case, the family prefix followed by
the name of the table or sequence. -/
def Case.label : Case → String
  | .rangeTable pfx name _ => pfx ++ name
  | .binarySearchSeq pfx name _ => pfx ++ name
  | .seq pfx name _ _ => pfx ++ name
  | .magnitude label _ => label

/-- The table or sequence name a case was built from. -/
def Case.name : Case → String
  | .rangeTable _ name _ => name
  | .binarySearchSeq _ name _ => name
  | .seq _ name _ _ => name
  | .magnitude label _ => label

/-- The data tables that `unicode.go` reads from the Go standard library
(`unicode.Categories`, `unicode.Properties`, `unicode.Scripts`,
`unicode.Noncharacter_Code_Point`), from the `emoji` package
(`emojidata.AllProperties` with `prop.String()` and `emoji.Latest.RangeTable(prop)`,
`emojidata.AllSeqTypes` with `seqType.String()` and `emoji.Latest.Sequences(seqType)`)
and from the rest of this package (`UnicodeInvalid`, `UTF8InvalidSequences`,
`isEmpty`).  None of them is in the embedded files, so they are parameters. -/
structure UnicodeData where
  Categories : GoMap RangeTablePtr
  Properties : GoMap RangeTablePtr
  Scripts : GoMap RangeTablePtr
  Noncharacter_Code_Point : RangeTablePtr
  emojiAllProperties : List (String × RangeTablePtr)
  emojiAllSeqTypes : List (String × List String)
  isEmpty : RangeTablePtr → Bool
  UnicodeInvalid : GoMap RangeTablePtr
  UTF8InvalidSequences : GoMap (List String)

/-- Go: `func rangeTablesToCases(prefix string, tables map[string]*unicode.RangeTable) []Case`.
The first argument is `unicode.Noncharacter_Code_Point`. -/
def rangeTablesToCases (ncp : RangeTablePtr) (pfx : String) (tables : GoMap RangeTablePtr) :
    List Case :=
  let rangeNames := sortStrings tables.rangeKeys
  rangeNames.foldl
    (fun cases rangeName =>
      let rt := tables.get rangeName
      if rt = ncp then cases
      else cases ++ [NewRangeTableCase pfx rangeName rt])
    []

/-- Go: `func sequencesToCases(prefix string, sequences map[string][]string) []Case`. -/
def sequencesToCases (pfx : String) (sequences : GoMap (List String)) : List Case :=
  let seqNames := sortStrings sequences.rangeKeys
  seqNames.foldl
    (fun cases seqName => cases ++ [NewBinarySearchSeqCase pfx seqName (sequences.get seqName)])
    []

/-- Go: `func sequencesToLinearCases(prefix string, sequences map[string][]string) []Case`. -/
def sequencesToLinearCases (pfx : String) (sequences : GoMap (List String)) : List Case :=
  let seqNames := sortStrings sequences.rangeKeys
  seqNames.foldl
    (fun cases seqName => cases ++ [NewSeqCase pfx seqName (sequences.get seqName) true])
    []

/-- Go: `func UnicodeCategoriesCases() []Case`. -/
def UnicodeCategoriesCases (u : UnicodeData) : List Case :=
  rangeTablesToCases u.Noncharacter_Code_Point "Unicode categories: " u.Categories

/-- Go: `func UnicodePropertiesCases() []Case`. -/
def UnicodePropertiesCases (u : UnicodeData) : List Case :=
  rangeTablesToCases u.Noncharacter_Code_Point "Unicode properties: " u.Properties

/-- Go: `func UnicodeScriptsCases() []Case`. -/
def UnicodeScriptsCases (u : UnicodeData) : List Case :=
  rangeTablesToCases u.Noncharacter_Code_Point "Unicode scripts: " u.Scripts

/-- The map that `UnicodeEmojiPropertyCases` fills: one entry per emoji property
whose range table is not empty. -/
def emojiPropertyTables (u : UnicodeData) : GoMap RangeTablePtr :=
  u.emojiAllProperties.foldl
    (fun tables prop =>
      let rt := prop.2
      if u.isEmpty rt then tables else tables.set prop.1 rt)
    []

/-- Go: `func UnicodeEmojiPropertyCases() []Case`. -/
def UnicodeEmojiPropertyCases (u : UnicodeData) : List Case :=
  rangeTablesToCases u.Noncharacter_Code_Point "Unicode emoji properties: " (emojiPropertyTables u)

/-- The map that `UnicodeEmojiSequenceCases` fills: one entry per sequence type
that has at least one sequence. -/
def emojiSequenceTables (u : UnicodeData) : GoMap (List String) :=
  u.emojiAllSeqTypes.foldl
    (fun sequences seqType =>
      let seq := seqType.2
      if seq.length = 0 then sequences else sequences.set seqType.1 seq)
    []

/-- Go: `func UnicodeEmojiSequenceCases() []Case`. -/
def UnicodeEmojiSequenceCases (u : UnicodeData) : List Case :=
  sequencesToCases "Unicode emoji sequences: " (emojiSequenceTables u)

/-- Go: `func UnicodeEmojiCases() []Case`. -/
def UnicodeEmojiCases (u : UnicodeData) : List Case :=
  let cases : List Case := []
  let cases := cases ++ UnicodeEmojiPropertyCases u
  let cases := cases ++ UnicodeEmojiSequenceCases u
  cases

/-- Go: `func UnicodeInvalidCases() []Case`. -/
def UnicodeInvalidCases (u : UnicodeData) : List Case :=
  let cases : List Case := []
  let cases := cases ++
    rangeTablesToCases u.Noncharacter_Code_Point "Unicode invalid characters: " u.UnicodeInvalid
  let cases := cases ++ sequencesToLinearCases "UTF8 invalid sequences: " u.UTF8InvalidSequences
  cases

/-- The body of `AllUnicodeCases` over the five lists it appends: categories,
properties, scripts, emoji, invalid, in that order. -/
def appendAllUnicode {α : Type} (categories properties scripts emoji invalid : List α) : List α :=
  let cases : List α := []
  let cases := cases ++ categories
  let cases := cases ++ properties
  let cases := cases ++ scripts
  let cases := cases ++ emoji
  let cases := cases ++ invalid
  cases

/-- Go: `func AllUnicodeCases() []Case`. -/
def AllUnicodeCases (u : UnicodeData) : List Case :=
  appendAllUnicode (UnicodeCategoriesCases u) (UnicodePropertiesCases u) (UnicodeScriptsCases u)
    (UnicodeEmojiCases u) (UnicodeInvalidCases u)

end Suite

/-! ## `cmd/crvd.go` and `cmd/suite.go` -/

namespace Cmd

open Suite

/-- Go: `math.MaxInt64`. -/
def MaxInt64 : Int := 9223372036854775807

/-- Go: `math.MaxUint64`. -/
def MaxUint64 : Nat := 18446744073709551615

/-- A storage target as returned by `f.Target(bucketStr)`; the commands only
pass it on, so it is a handle, `0` being `nil`. -/
abbrev Target := Nat

/-- Modelled from the spec: `CosFlags`, the flags shared by all commands, is
declared outside the embedded files; the fields kept are those `crvd.go`
reads. -/
structure CosFlags where
  Region : String
  Endpoint : String
  deriving DecidableEq, Repr

/-- Modelled from the spec: `pkg.Crvd` is declared outside the embedded files;
it is the record of the arguments of `pkg.NewCrvd(target, key, contentLength, seed)`. -/
structure Crvd where
  target : Target
  key : String
  contentLength : Int
  seed : Int
  deriving DecidableEq, Repr

/-- Go: `pkg.NewCrvd(target, key, contentLength, randomSeed)`. -/
def NewCrvd (target : Target) (key : String) (contentLength : Int) (seed : Int) : Crvd :=
  { target := target, key := key, contentLength := contentLength, seed := seed }

/-- The calls a command makes on its collaborators, in order.  Printing is left
out. -/
inductive Event where
  | newCrvd (crvd : Crvd)
  | createRetrieveVerify (crvd : Crvd)
  | createRetrieveVerifyDelete (crvd : Crvd)
  | newSuite (cases : List Case) (target : Target) (logLevel : Nat) (dryRun : Bool)
  | suiteExecute (cases : List Case) (target : Target) (logLevel : Nat) (dryRun : Bool)
  deriving DecidableEq, Repr

/-- Whether an event is an operation of a `Crvd` against its target. -/
def Event.isCrvdRun : Event → Bool
  | .createRetrieveVerify _ => true
  | .createRetrieveVerifyDelete _ => true
  | _ => false

/-- Whether an event constructs or executes a suite. -/
def Event.isSuite : Event → Bool
  | .newSuite _ _ _ _ => true
  | .suiteExecute _ _ _ _ => true
  | _ => false

/-- What a command did and what it returned: the trace of its calls and the
returned `error` (`none` for nil). -/
structure Outcome where
  trace : List Event
  err : Option String
  deriving DecidableEq, Repr

/-- The collaborators of the two commands that are outside the embedded files.
A Go function returning `(value, error)` returns a pair here. -/
structure Env where
  /-- Go: `f.Target(bucketStr)` of `CosFlags`. -/
  Target : CosFlags → String → Target × Option String
  /-- Go: `f.LogLevel()` of `CosFlags`. -/
  LogLevel : CosFlags → Nat
  /-- Go: `suite.ParseSizeMax`. -/
  ParseSizeMax : String → Int × Option String
  /-- Go: `suite.FileSizeCases`. -/
  FileSizeCases : Int → List Case
  /-- Go: `suite.FileCountCases`. -/
  FileCountCases : Nat → List Case
  /-- The Unicode data behind `internal/suite/unicode.go`. -/
  unicode : UnicodeData
  /-- Go: `pkg.DefaultContentLengthBytes`. -/
  DefaultContentLengthBytes : Int
  /-- Go: `pkg.DefaultRandomSeed`. -/
  DefaultRandomSeed : Int
  /-- Go: `crvd.CreateRetrieveVerify()`, the error it returns. -/
  CreateRetrieveVerify : Crvd → Option String
  /-- Go: `crvd.CreateRetrieveVerifyDelete()`, the error it returns. -/
  CreateRetrieveVerifyDelete : Crvd → Option String
  /-- Go: `bytefmt.ToBytes`, returning `(uint64, error)`. -/
  ToBytes : String → Nat × Option String
  /-- Go: `unicode.IsLetter` above the ASCII range. -/
  isLetterAboveASCII : Char → Bool
  /-- Go: `strconv.Quote`. -/
  Quote : String → String

/-- Go: `pkg.NewDefaultCrvd(target, key)`, a `Crvd` with the default content
length and random seed. -/
def NewDefaultCrvd (env : Env) (target : Target) (key : String) : Crvd :=
  NewCrvd target key env.DefaultContentLengthBytes env.DefaultRandomSeed

/-- Go: `unicode.IsLetter`.  In the ASCII range the letters are `A`-`Z` and
`a`-`z`. -/
def IsLetter (env : Env) (r : Char) : Bool :=
  if r.toNat < 128 then r.isAlpha else env.isLetterAboveASCII r

/-- The loop of `strings.IndexFunc`: the byte offset of the first character
that satisfies `p`, or `-1`. -/
def IndexFunc.go (p : Char → Bool) : List Char → Nat → Int
  | [], _ => -1
  | c :: cs, i => if p c then (i : Int) else IndexFunc.go p cs (i + c.utf8Size)

/-- Go: `strings.IndexFunc(s, f)`. -/
def IndexFunc (s : String) (p : Char → Bool) : Int := IndexFunc.go p s.toList 0

/-- The value of a string of decimal digits. -/
def digitsValue (ds : List Char) : Nat :=
  ds.foldl (fun acc c => acc * 10 + (c.toNat - 48)) 0

/-- Go: `strconv.ParseInt(s, 10, 64)`; `quote` is `strconv.Quote`, which the
error text applies to the input.  Modelled from the documentation of the standard
library: an optional sign followed by at least one decimal digit; a syntax
error returns `0`, a value outside of `int64` returns the nearest bound and a
range error. -/
def ParseInt (quote : String → String) (s : String) : Int × Option String :=
  let (neg, ds) :=
    match s.toList with
    | '+' :: rest => (false, rest)
    | '-' :: rest => (true, rest)
    | cs => (false, cs)
  if ds.isEmpty || !ds.all Char.isDigit then
    (0, some ("strconv.ParseInt: parsing " ++ quote s ++ ": invalid syntax"))
  else
    let un := digitsValue ds
    if !neg && un ≥ 9223372036854775808 then
      (9223372036854775807, some ("strconv.ParseInt: parsing " ++ quote s ++ ": value out of range"))
    else if neg && un > 9223372036854775808 then
      (-9223372036854775808, some ("strconv.ParseInt: parsing " ++ quote s ++ ": value out of range"))
    else
      (if neg then -(un : Int) else (un : Int), none)

/-- Go: the conversion `int64(x)` of a `uint64`. -/
def int64OfUint64 (x : Nat) : Int :=
  if x % 2 ^ 64 < 2 ^ 63 then ((x % 2 ^ 64 : Nat) : Int) else ((x % 2 ^ 64 : Nat) : Int) - 2 ^ 64

/-- Go: `type crvdFlags struct`. -/
structure crvdFlags extends CosFlags where
  Key : String
  Size : String
  Seed : Int
  Keep : Bool
  deriving DecidableEq, Repr

/-- Go: `func (f crvdFlags) ContentLength() (int64, error)`. -/
def crvdFlags.ContentLength (env : Env) (f : crvdFlags) : Int × Option String :=
  let sizeStr := f.Size
  let sizeIsNumeric := IndexFunc sizeStr (IsLetter env) == -1
  if sizeIsNumeric then
    ParseInt env.Quote sizeStr
  else
    let (bytes, err) := env.ToBytes sizeStr
    if err.isNone && (bytes : Int) > MaxInt64 then
      (0, some ("specified size " ++ toString bytes ++ " bytes exceeds maximum " ++ toString MaxInt64))
    else
      (int64OfUint64 bytes, err)

/-- Go: `func crvd(bucketStr string, f crvdFlags) (err error)`.  The error of
`f.Target` is assigned to `err` and then overwritten by the error of
`f.ContentLength` before anything reads it. -/
def crvd (env : Env) (bucketStr : String) (f : crvdFlags) : Outcome :=
  let (target, _) := env.Target f.toCosFlags bucketStr
  let (contentLength, err) := f.ContentLength env
  if err.isSome then
    { trace := [], err := err }
  else
    let crvd := NewCrvd target f.Key contentLength f.Seed
    if f.Keep then
      let err := env.CreateRetrieveVerify crvd
      { trace := [.newCrvd crvd, .createRetrieveVerify crvd], err := err }
    else
      let err := env.CreateRetrieveVerifyDelete crvd
      { trace := [.newCrvd crvd, .createRetrieveVerifyDelete crvd], err := err }

/-- Go: `type SuiteFlags struct`.  `CountMax` is a `uint64`. -/
structure SuiteFlags extends CosFlags where
  Size : Bool
  SizeMax : String
  Count : Bool
  CountMax : Nat
  Unicode : Bool
  UnicodeCategories : Bool
  UnicodeScripts : Bool
  UnicodeProperties : Bool
  UnicodeEmoji : Bool
  UnicodeInvalid : Bool
  DryRun : Bool
  deriving DecidableEq, Repr

/-- The condition `f.CountMax < 0` of `runSuite`, a comparison of a `uint64`
with the constant `0`. -/
def countMaxIsNegative (f : SuiteFlags) : Bool := decide (f.CountMax < 0)

/-- Go: the `countMax` of `runSuite`,
`if f.CountMax < 0 { countMax = math.MaxUint64 } else { countMax = uint64(f.CountMax) }`. -/
def countMaxOf (f : SuiteFlags) : Nat :=
  if countMaxIsNegative f then MaxUint64 else f.CountMax % 2 ^ 64

/-- The seven case families of the suite. -/
inductive Family where
  | fileSize
  | fileCount
  | unicodeCategories
  | unicodeProperties
  | unicodeScripts
  | unicodeEmoji
  | unicodeInvalid
  deriving DecidableEq, Repr

/-- Go: the part of `runSuite` that fills `cases`, over the seven lists its
calls return (`FileSizeCases(sizeMax)`, `FileCountCases(countMax)`,
`UnicodeCategoriesCases()`, `UnicodePropertiesCases()`, `UnicodeScriptsCases()`,
`UnicodeEmojiCases()`, `UnicodeInvalidCases()`); `AllUnicodeCases()` is
`appendAllUnicode` of the last five. -/
def selectCases {α : Type} (f : SuiteFlags)
    (fileSize fileCount categories properties scripts emoji invalid : List α) : List α :=
  let anyUnicode := f.Unicode ||
    f.UnicodeScripts ||
    f.UnicodeProperties ||
    f.UnicodeEmoji ||
    f.UnicodeCategories ||
    f.UnicodeInvalid
  let cases : List α := []
  let runAllCases := !(f.Size || f.Count || anyUnicode)
  let cases := if runAllCases || f.Size then cases ++ fileSize else cases
  let cases := if runAllCases || f.Count then cases ++ fileCount else cases
  let cases :=
    if runAllCases || f.Unicode then
      cases ++ appendAllUnicode categories properties scripts emoji invalid
    else cases
  let cases :=
    if !f.Unicode then
      let cases := if f.UnicodeCategories then cases ++ categories else cases
      let cases := if f.UnicodeScripts then cases ++ scripts else cases
      let cases := if f.UnicodeProperties then cases ++ properties else cases
      let cases := if f.UnicodeEmoji then cases ++ emoji else cases
      let cases := if f.UnicodeInvalid then cases ++ invalid else cases
      cases
    else cases
  cases

/-- The case list of `runSuite` for given `sizeMax` and `countMax`. -/
def suiteCases (env : Env) (f : SuiteFlags) (sizeMax : Int) (countMax : Nat) : List Case :=
  selectCases f (env.FileSizeCases sizeMax) (env.FileCountCases countMax)
    (UnicodeCategoriesCases env.unicode) (UnicodePropertiesCases env.unicode)
    (UnicodeScriptsCases env.unicode) (UnicodeEmojiCases env.unicode)
    (UnicodeInvalidCases env.unicode)

/-- Go: the end of `runSuite`, from `suite := NewSuite(cases, target, logLevel, f.DryRun)`
to `return nil`, after the calls in `before`. -/
def runSuite.execute (before : List Event) (cases : List Case) (target : Target) (logLevel : Nat)
    (dryRun : Bool) : Outcome :=
  { trace := before ++
      [.newSuite cases target logLevel dryRun, .suiteExecute cases target logLevel dryRun],
    err := none }

/-- Go: `func runSuite(bucketStr string, f SuiteFlags) error`.  The logger made
when the log level is above `logging.Detail` is discarded by the code and left
out here. -/
def runSuite (env : Env) (bucketStr : String) (f : SuiteFlags) : Outcome :=
  let (sizeMax, err) := env.ParseSizeMax f.SizeMax
  if err.isSome then
    { trace := [], err := err }
  else
    let countMax := countMaxOf f
    let (target, err) := env.Target f.toCosFlags bucketStr
    if err.isSome then
      { trace := [], err := err }
    else
      let logLevel := env.LogLevel f.toCosFlags
      let cases := suiteCases env f sizeMax countMax
      if !f.DryRun then
        let crvd := NewDefaultCrvd env target ""
        match env.CreateRetrieveVerifyDelete crvd with
        | some err =>
          { trace := [.newCrvd crvd, .createRetrieveVerifyDelete crvd],
            err := some ("connection check failed: " ++ err) }
        | none =>
          runSuite.execute [.newCrvd crvd, .createRetrieveVerifyDelete crvd] cases target logLevel
            f.DryRun
      else
        runSuite.execute [] cases target logLevel f.DryRun

/-- The family selection as the help text of the suite command gives it: every
family when no selector flag is set; otherwise a family whose own flag is set,
and each Unicode family when `--unicode` is set. -/
def selected (f : SuiteFlags) (fam : Family) : Bool :=
  let noSelector := !(f.Size || f.Count || f.Unicode || f.UnicodeCategories ||
    f.UnicodeScripts || f.UnicodeProperties || f.UnicodeEmoji || f.UnicodeInvalid)
  match fam with
  | .fileSize => noSelector || f.Size
  | .fileCount => noSelector || f.Count
  | .unicodeCategories => noSelector || f.UnicodeCategories || f.Unicode
  | .unicodeProperties => noSelector || f.UnicodeProperties || f.Unicode
  | .unicodeScripts => noSelector || f.UnicodeScripts || f.Unicode
  | .unicodeEmoji => noSelector || f.UnicodeEmoji || f.Unicode
  | .unicodeInvalid => noSelector || f.UnicodeInvalid || f.Unicode

/-- The list of cases of a family, among seven given lists. -/
def familyCases {α : Type} (fileSize fileCount categories properties scripts emoji invalid : List α) :
    Family → List α
  | .fileSize => fileSize
  | .fileCount => fileCount
  | .unicodeCategories => categories
  | .unicodeProperties => properties
  | .unicodeScripts => scripts
  | .unicodeEmoji => emoji
  | .unicodeInvalid => invalid

/-- The families that `runSuite` appends for the flags `f`, in the order in
which it appends them: `selectCases` run on one tag per family. -/
def selectedFamilies (f : SuiteFlags) : List Family :=
  selectCases f [.fileSize] [.fileCount] [.unicodeCategories] [.unicodeProperties]
    [.unicodeScripts] [.unicodeEmoji] [.unicodeInvalid]

/-- The flag record with the given selector flags and every other field empty. -/
def flagsOf (size count u uc us up ue ui : Bool) : SuiteFlags :=
  { Region := "", Endpoint := "", Size := size, SizeMax := "", Count := count, CountMax := 0,
    Unicode := u, UnicodeCategories := uc, UnicodeScripts := us, UnicodeProperties := up,
    UnicodeEmoji := ue, UnicodeInvalid := ui, DryRun := false }

end Cmd

/-! ## Sample inputs -/

namespace Sample

open Suite Cmd

/-- A small excerpt of the Unicode tables: two categories, two properties (one
of them the noncharacter table, at address 99), two scripts, three emoji
properties (the last one empty) and two emoji sequence types (the last one
without sequences). -/
def unicodeData : UnicodeData where
  Categories := [("Lu", 11), ("L", 10)]
  Properties := [("Noncharacter_Code_Point", 99), ("Dash", 20)]
  Scripts := [("Latin", 30), ("Greek", 31)]
  Noncharacter_Code_Point := 99
  emojiAllProperties := [("Emoji", 40), ("Emoji_Presentation", 41), ("Extended_Pictographic", 42)]
  emojiAllSeqTypes := [("Emoji_Keycap_Sequence", ["#️⃣"]), ("Emoji_Flag_Sequence", [])]
  isEmpty := fun rt => rt == 42
  UnicodeInvalid := []
  UTF8InvalidSequences := []

/-- Sample collaborators: a bucket URL of scheme `s3` has target `1` and any
other URL is refused, the only size understood is `1K`, both object lifecycles
return nil, and quoting puts a string without special characters between
double quotes. -/
def env : Env where
  Target := fun _ bucketStr =>
    if bucketStr.toList.take 5 = "s3://".toList then (1, none) else (0, some "unsupported scheme")
  LogLevel := fun _ => 0
  ParseSizeMax := fun s =>
    if s = "1K" then (1024, none) else (0, some "byte quantity must be a positive integer")
  FileSizeCases := fun sizeMax => [.magnitude "file size" sizeMax.toNat]
  FileCountCases := fun countMax => [.magnitude "file count" countMax]
  unicode := unicodeData
  DefaultContentLengthBytes := 4096
  DefaultRandomSeed := 0
  CreateRetrieveVerify := fun _ => none
  CreateRetrieveVerifyDelete := fun _ => none
  ToBytes := fun s =>
    if s = "1K" then (1024, none) else (0, some "byte quantity must be a positive integer")
  isLetterAboveASCII := fun _ => false
  Quote := fun s => "\"" ++ s ++ "\""

/-- As `env`, with a backend that refuses the object of the connection check. -/
def envCheckFails : Env :=
  { env with CreateRetrieveVerifyDelete := fun _ => some "403 Forbidden" }

/-- A map of sequences with two entries, visited in descending order of name. -/
def sequences : GoMap (List String) := [("overlong", ["c0 80"]), ("continuation", ["80"])]

/-- The flags shared by all commands, empty. -/
def cosFlags : CosFlags := { Region := "", Endpoint := "" }

/-- The suite flags with no selector set and a size limit of `1K`. -/
def suiteFlags : SuiteFlags :=
  { toCosFlags := cosFlags, Size := false, SizeMax := "1K", Count := false, CountMax := 16,
    Unicode := false, UnicodeCategories := false, UnicodeScripts := false,
    UnicodeProperties := false, UnicodeEmoji := false, UnicodeInvalid := false, DryRun := false }

/-- The flags of `crvd` with a size of zero bytes. -/
def crvdZero : crvdFlags :=
  { toCosFlags := cosFlags, Key := "", Size := "0", Seed := 0, Keep := false }

end Sample

end Cos

/-! # Theorems -/

namespace Cos

namespace Logging

/-- On a non-negative elapsed time the truncating operations of `FormatNanos`
are the flooring ones. -/
theorem formatNanos_parts_nonneg (ns : Int) (h : 0 ≤ ns) :
    hoursOf ns = ns / 3600000000000 ∧
    minutesOf ns = ns % 3600000000000 / 60000000000 ∧
    secondsOf ns = ns % 60000000000 / 1000000000 ∧
    ns.tdiv nsPerMilli = ns / 1000000 := by
  unfold hoursOf minutesOf secondsOf nsPerHour nsPerMinute nsPerSecond nsPerMilli
  have e1 : ns.tdiv 3600000000000 = ns / 3600000000000 := Int.tdiv_eq_ediv h (by norm_num)
  have e2 : ns.tmod 3600000000000 = ns % 3600000000000 := Int.tmod_eq_emod h (by norm_num)
  have e3 : ns.tmod 60000000000 = ns % 60000000000 := Int.tmod_eq_emod h (by norm_num)
  have e4 : (ns % 3600000000000).tdiv 60000000000 = ns % 3600000000000 / 60000000000 :=
    Int.tdiv_eq_ediv (by omega) (by norm_num)
  have e5 : (ns % 60000000000).tdiv 1000000000 = ns % 60000000000 / 1000000000 :=
    Int.tdiv_eq_ediv (by omega) (by norm_num)
  have e6 : ns.tdiv 1000000 = ns / 1000000 := Int.tdiv_eq_ediv h (by norm_num)
  simp only [e1, e2, e3, e4, e5, e6, and_self]

/-- The branch `FormatNanos` takes on a non-negative elapsed time, by
magnitude. -/
theorem formatNanosForm_nonneg (ns : Int) (h : 0 ≤ ns) :
    formatNanosForm ns =
      if 3600000000000 ≤ ns then
        .hoursMinutesSeconds (ns / 3600000000000) (ns % 3600000000000 / 60000000000)
          (ns % 60000000000 / 1000000000)
      else if 60000000000 ≤ ns then
        .minutesSeconds (ns / 60000000000) (ns % 60000000000 / 1000000000)
      else if 1000000000 ≤ ns then
        .secondsOnly (ns / 1000000000)
      else
        .millisOnly (ns / 1000000) := by
  obtain ⟨eh, em, es, el⟩ := formatNanos_parts_nonneg ns h
  unfold formatNanosForm
  simp only [eh, em, es, el]
  by_cases h1 : 3600000000000 ≤ ns
  · have c1 : ns / 3600000000000 > 0 := by omega
    rw [if_pos c1, if_pos h1]
  · have c1 : ¬ ns / 3600000000000 > 0 := by omega
    rw [if_neg c1, if_neg h1]
    by_cases h2 : 60000000000 ≤ ns
    · have c2 : ns % 3600000000000 / 60000000000 > 0 := by omega
      have e : ns % 3600000000000 / 60000000000 = ns / 60000000000 := by omega
      rw [if_pos c2, if_pos h2, e]
    · have c2 : ¬ ns % 3600000000000 / 60000000000 > 0 := by omega
      rw [if_neg c2, if_neg h2]
      by_cases h3 : 1000000000 ≤ ns
      · have c3 : ns % 60000000000 / 1000000000 > 0 := by omega
        have e : ns % 60000000000 / 1000000000 = ns / 1000000000 := by omega
        rw [if_pos c3, if_pos h3, e]
      · have c3 : ¬ ns % 60000000000 / 1000000000 > 0 := by omega
        rw [if_neg c3, if_neg h3]

/-- C9, the claim as stated, fails: for one hour, two minutes and three seconds
`FormatNanos` returns `1h 2m 3s`, with blanks between the components, where the
claimed form is `1h2m3s`. -/
theorem formatNanos_not_compact :
    FormatNanos 3723000000000 = "1h 2m 3s" ∧
    specFormatNanos 3723000000000 = "1h2m3s" ∧
    ¬ (∀ ns : Int, 0 ≤ ns → FormatNanos ns = specFormatNanos ns) := by
  refine ⟨by decide, by decide, ?_⟩
  intro hall
  exact absurd (hall 3723000000000 (by decide)) (by decide)

/-- C9, amended: for every elapsed time `ns >= 0`, `FormatNanos ns` is
`Xh Ym Zs` when `ns` is at least one hour, `Ym Zs` when at least one minute but
under an hour, `Zs` when at least one second but under a minute, and `Nms` when
under one second, with the decimal numerals of the whole hours, minutes, seconds
and milliseconds and one blank between the components. -/
theorem formatNanos_spaced (ns : Int) (h : 0 ≤ ns) : FormatNanos ns = spacedFormatNanos ns := by
  unfold FormatNanos spacedFormatNanos
  rw [formatNanosForm_nonneg ns h]
  split_ifs <;> simp only [NanosForm.render, fmtD]

/-- A run of `formatNanos_spaced` on 61 seconds. -/
theorem formatNanos_spaced_witness :
    (0 : Int) ≤ 61000000000 ∧ FormatNanos 61000000000 = spacedFormatNanos 61000000000 :=
  ⟨by decide, formatNanos_spaced 61000000000 (by decide)⟩

/-- C10: for every `ns >= 0` the minutes and seconds that `FormatNanos` computes
lie in `[0, 60)`, the hours, minutes and seconds add up to the whole seconds of
`ns`, the seconds taken from `ns mod 1min` are those of the remainder left after
removing the hours, and the millisecond form is used exactly when `ns` has no
whole second, with the whole milliseconds of `ns`, which are under 1000. -/
theorem formatNanos_components (ns : Int) (h : 0 ≤ ns) :
    hoursOf ns = ns / 3600000000000 ∧
    minutesOf ns = ns % 3600000000000 / 60000000000 ∧
    secondsOf ns = ns % 60000000000 / 1000000000 ∧
    0 ≤ hoursOf ns ∧
    0 ≤ minutesOf ns ∧ minutesOf ns < 60 ∧
    0 ≤ secondsOf ns ∧ secondsOf ns < 60 ∧
    hoursOf ns * 3600 + minutesOf ns * 60 + secondsOf ns = ns / 1000000000 ∧
    secondsOf ns = ((ns.tmod nsPerHour).tmod nsPerMinute).tdiv nsPerSecond ∧
    (∀ n, formatNanosForm ns = .millisOnly n ↔ (ns / 1000000000 = 0 ∧ n = ns / 1000000)) ∧
    (ns / 1000000000 = 0 → ns / 1000000 < 1000) := by
  obtain ⟨eh, em, es, el⟩ := formatNanos_parts_nonneg ns h
  have e2 : ns.tmod nsPerHour = ns % 3600000000000 := by
    unfold nsPerHour; exact Int.tmod_eq_emod h (by norm_num)
  have e3 : (ns % 3600000000000).tmod nsPerMinute = ns % 3600000000000 % 60000000000 := by
    unfold nsPerMinute; exact Int.tmod_eq_emod (by omega) (by norm_num)
  have e4 : (ns % 3600000000000 % 60000000000).tdiv nsPerSecond
      = ns % 3600000000000 % 60000000000 / 1000000000 := by
    unfold nsPerSecond; exact Int.tdiv_eq_ediv (by omega) (by norm_num)
  refine ⟨eh, em, es, ?_, ?_, ?_, ?_, ?_, ?_, ?_, ?_, ?_⟩
  · rw [eh]; omega
  · rw [em]; omega
  · rw [em]; omega
  · rw [es]; omega
  · rw [es]; omega
  · rw [eh, em, es]; omega
  · rw [es, e2, e3, e4]; omega
  · intro n
    rw [formatNanosForm_nonneg ns h]
    constructor
    · intro hf
      split_ifs at hf with h1 h2 h3
      · injection hf with hn
        exact ⟨by omega, hn.symm⟩
    · rintro ⟨hz, hn⟩
      have h1 : ¬ 3600000000000 ≤ ns := by omega
      have h2 : ¬ 60000000000 ≤ ns := by omega
      have h3 : ¬ 1000000000 ≤ ns := by omega
      rw [if_neg h1, if_neg h2, if_neg h3, hn]
  · intro hz; omega

/-- A run of `formatNanos_components` on 1 hour, 1 minute, 1.5 seconds. -/
theorem formatNanos_components_witness :
    (0 : Int) ≤ 3661500000000 ∧
    hoursOf 3661500000000 * 3600 + minutesOf 3661500000000 * 60 + secondsOf 3661500000000
      = 3661500000000 / 1000000000 :=
  ⟨by decide, (formatNanos_components 3661500000000 (by decide)).2.2.2.2.2.2.2.2.1⟩

end Logging

namespace Suite

/-- Any two sequences of code points are comparable. -/
theorem codesLe_total (a b : List Nat) : codesLe a b = true ∨ codesLe b a = true := by
  induction a generalizing b with
  | nil => simp [codesLe]
  | cons x xs ih =>
    cases b with
    | nil => simp [codesLe]
    | cons y ys =>
      simp only [codesLe, Bool.or_eq_true, Bool.and_eq_true, decide_eq_true_eq, beq_iff_eq]
      rcases Nat.lt_trichotomy x y with h | h | h
      · exact Or.inl (Or.inl h)
      · rcases ih ys with h2 | h2
        · exact Or.inl (Or.inr ⟨h, h2⟩)
        · exact Or.inr (Or.inr ⟨h.symm, h2⟩)
      · exact Or.inr (Or.inl h)

/-- The lexicographic comparison is transitive. -/
theorem codesLe_trans (a b c : List Nat) (h1 : codesLe a b = true) (h2 : codesLe b c = true) :
    codesLe a c = true := by
  induction a generalizing b c with
  | nil => simp [codesLe]
  | cons x xs ih =>
    cases b with
    | nil => simp [codesLe] at h1
    | cons y ys =>
      cases c with
      | nil => simp [codesLe] at h2
      | cons z zs =>
        simp only [codesLe, Bool.or_eq_true, Bool.and_eq_true, decide_eq_true_eq, beq_iff_eq] at *
        rcases h1 with h1 | ⟨h1, h1t⟩
        · rcases h2 with h2 | ⟨h2, _⟩
          · exact Or.inl (by omega)
          · exact Or.inl (by omega)
        · rcases h2 with h2 | ⟨h2, h2t⟩
          · exact Or.inl (by omega)
          · exact Or.inr ⟨by omega, ih ys zs h1t h2t⟩

/-- Two sequences of code points that are below each other are equal. -/
theorem codesLe_antisymm (a b : List Nat) (h1 : codesLe a b = true) (h2 : codesLe b a = true) :
    a = b := by
  induction a generalizing b with
  | nil =>
    cases b with
    | nil => rfl
    | cons y ys => simp [codesLe] at h2
  | cons x xs ih =>
    cases b with
    | nil => simp [codesLe] at h1
    | cons y ys =>
      simp only [codesLe, Bool.or_eq_true, Bool.and_eq_true, decide_eq_true_eq, beq_iff_eq] at *
      rcases h1 with h1 | ⟨h1, h1t⟩
      · rcases h2 with h2 | ⟨h2, _⟩ <;> omega
      · rcases h2 with h2 | ⟨_, h2t⟩
        · omega
        · rw [h1, ih ys h1t h2t]

/-- A common prefix does not change how two sequences compare. -/
theorem codesLe_append_left (p a b : List Nat) : codesLe (p ++ a) (p ++ b) = codesLe a b := by
  induction p with
  | nil => rfl
  | cons x xs ih => simp [codesLe, ih]

/-- A string is determined by its code points. -/
theorem codes_injective (a b : String)
    (h : a.toList.map Char.toNat = b.toList.map Char.toNat) : a = b := by
  have hinj : Function.Injective Char.toNat := by
    intro x y hxy
    apply Char.ext
    apply UInt32.ext
    exact hxy
  exact String.ext (List.map_injective_iff.mpr hinj h)

/-- A common prefix does not change how two strings compare. -/
theorem strLe_append_left (p a b : String) : strLe (p ++ a) (p ++ b) = strLe a b := by
  simp [strLe, codesLe_append_left]

/-- Any two strings are comparable. -/
theorem strLe_isTotal : IsTotal String StrLe := ⟨fun _ _ => codesLe_total _ _⟩

/-- The order on strings is transitive. -/
theorem strLe_isTrans : IsTrans String StrLe := ⟨fun _ _ _ h1 h2 => codesLe_trans _ _ _ h1 h2⟩

/-- Two strings that are below each other are equal. -/
theorem strLe_isAntisymm : IsAntisymm String StrLe :=
  ⟨fun a b h1 h2 => codes_injective a b (codesLe_antisymm _ _ h1 h2)⟩

/-- Distinct strings in non-decreasing order are in increasing order. -/
theorem strLt_of_strLe_of_ne {a b : String} (h : StrLe a b) (hne : a ≠ b) : StrLt a b := by
  unfold StrLt
  cases hba : strLe b a with
  | false => rfl
  | true => exact absurd (strLe_isAntisymm.antisymm a b h hba) hne

/-- Sorting keeps the strings, each as often as before. -/
theorem sortStrings_perm (l : List String) : (sortStrings l).Perm l :=
  List.perm_insertionSort StrLe l

/-- Sorting puts the strings in non-decreasing order. -/
theorem sortStrings_sorted (l : List String) : (sortStrings l).Pairwise StrLe := by
  haveI := strLe_isTotal
  haveI := strLe_isTrans
  exact List.sorted_insertionSort StrLe l

/-- Sorting forgets the order of its input. -/
theorem sortStrings_congr {l₁ l₂ : List String} (h : l₁.Perm l₂) :
    sortStrings l₁ = sortStrings l₂ := by
  haveI := strLe_isAntisymm
  exact List.eq_of_perm_of_sorted
    ((sortStrings_perm l₁).trans (h.trans (sortStrings_perm l₂).symm))
    (sortStrings_sorted l₁) (sortStrings_sorted l₂)

/-- Sorting distinct strings puts them in increasing order. -/
theorem sortStrings_strict {l : List String} (h : l.Nodup) : (sortStrings l).Pairwise StrLt := by
  have hnd : (sortStrings l).Nodup := (sortStrings_perm l).nodup_iff.mpr h
  have hboth := (sortStrings_sorted l).and hnd
  exact hboth.imp (fun ⟨hle, hne⟩ => strLt_of_strLe_of_ne hle hne)

/-- The loop
`for _, name := range names { if skip(name) { continue }; cases = append(cases, mk(name)) }`
filters and maps. -/
theorem foldl_append_filter_map {α β : Type} (skip : α → Prop) [DecidablePred skip] (mk : α → β)
    (names : List α) (acc : List β) :
    names.foldl (fun cases n => if skip n then cases else cases ++ [mk n]) acc =
      acc ++ (names.filter (fun n => !decide (skip n))).map mk := by
  induction names generalizing acc with
  | nil => simp
  | cons n ns ih =>
    simp only [List.foldl_cons]
    rw [ih]
    by_cases hn : skip n <;> simp [hn, List.filter_cons]

/-- The loop `for _, name := range names { cases = append(cases, mk(name)) }` maps. -/
theorem foldl_append_map {α β : Type} (mk : α → β) (names : List α) (acc : List β) :
    names.foldl (fun cases n => cases ++ [mk n]) acc = acc ++ names.map mk := by
  induction names generalizing acc with
  | nil => simp
  | cons n ns ih =>
    simp only [List.foldl_cons]
    rw [ih]
    simp

/-- In a well-formed map, the value found under the key of an entry is the value
of the entry. -/
theorem GoMap.get_of_mem {β : Type} [Inhabited β] {m : GoMap β} (h : m.WF) {e : String × β}
    (he : e ∈ m) : m.get e.1 = e.2 := by
  induction m with
  | nil => simp at he
  | cons x xs ih =>
    unfold GoMap.WF at h
    simp only [List.map_cons, List.nodup_cons] at h
    rcases List.mem_cons.mp he with rfl | hmem
    · simp [GoMap.get, List.find?]
    · have hne : x.1 ≠ e.1 := by
        intro heq
        exact h.1 (heq ▸ List.mem_map_of_mem Prod.fst hmem)
      have hih := ih h.2 hmem
      have hb : (x.1 == e.1) = false := by simpa using hne
      simp only [GoMap.get] at hih ⊢
      rw [List.find?_cons, hb]
      exact hih

/-- Two well-formed maps with the same entries agree on every key of theirs. -/
theorem GoMap.get_congr {β : Type} [Inhabited β] {m₁ m₂ : GoMap β} (h : m₁.Perm m₂)
    (hwf : m₂.WF) {k : String} (hk : k ∈ m₂.rangeKeys) : m₁.get k = m₂.get k := by
  have hwf₁ : m₁.WF := by
    unfold GoMap.WF at hwf ⊢
    exact (h.map Prod.fst).nodup_iff.mpr hwf
  obtain ⟨e, he, rfl⟩ := List.mem_map.mp hk
  rw [GoMap.get_of_mem hwf he, GoMap.get_of_mem hwf₁ (h.mem_iff.mpr he)]

/-- The result of `rangeTablesToCases`: the sorted names, without those of the
noncharacter table, each turned into a case. -/
theorem rangeTablesToCases_eq (ncp : RangeTablePtr) (pfx : String) (tables : GoMap RangeTablePtr) :
    rangeTablesToCases ncp pfx tables =
      ((sortStrings tables.rangeKeys).filter (fun n => !decide (tables.get n = ncp))).map
        (fun n => NewRangeTableCase pfx n (tables.get n)) := by
  unfold rangeTablesToCases
  simp only []
  rw [foldl_append_filter_map (fun n => tables.get n = ncp)
    (fun n => NewRangeTableCase pfx n (tables.get n))]
  simp

/-- The result of `sequencesToCases`: one case per sorted name. -/
theorem sequencesToCases_eq (pfx : String) (sequences : GoMap (List String)) :
    sequencesToCases pfx sequences =
      (sortStrings sequences.rangeKeys).map
        (fun n => NewBinarySearchSeqCase pfx n (sequences.get n)) := by
  unfold sequencesToCases
  simp only []
  rw [foldl_append_map]
  simp

/-- The result of `sequencesToLinearCases`: one case per sorted name. -/
theorem sequencesToLinearCases_eq (pfx : String) (sequences : GoMap (List String)) :
    sequencesToLinearCases pfx sequences =
      (sortStrings sequences.rangeKeys).map
        (fun n => NewSeqCase pfx n (sequences.get n) true) := by
  unfold sequencesToLinearCases
  simp only []
  rw [foldl_append_map]
  simp

/-- One value per entry: mapping the sorted keys of a well-formed map through a
function of key and stored value gives, up to order, the entries mapped. -/
theorem sorted_keys_map_perm {β γ : Type} [Inhabited β] (m : GoMap β) (hwf : m.WF)
    (keep : String → β → Bool) (mk : String → β → γ) :
    (((sortStrings m.rangeKeys).filter (fun n => keep n (m.get n))).map
        (fun n => mk n (m.get n))).Perm
      ((m.filter (fun e => keep e.1 e.2)).map (fun e => mk e.1 e.2)) := by
  have h1 : (((sortStrings m.rangeKeys).filter (fun n => keep n (m.get n))).map
        (fun n => mk n (m.get n))).Perm
      ((m.rangeKeys.filter (fun n => keep n (m.get n))).map (fun n => mk n (m.get n))) :=
    ((sortStrings_perm m.rangeKeys).filter _).map _
  refine h1.trans (List.Perm.of_eq ?_)
  unfold GoMap.rangeKeys
  rw [List.filter_map, List.map_map]
  have hf : List.filter ((fun n => keep n (m.get n)) ∘ Prod.fst) m =
      List.filter (fun e => keep e.1 e.2) m := by
    apply List.filter_congr
    intro e he
    simp only [Function.comp_apply, GoMap.get_of_mem hwf he]
  rw [hf]
  apply List.map_congr_left
  intro e he
  simp only [Function.comp_apply, GoMap.get_of_mem hwf (List.mem_of_mem_filter he)]

/-- Iteration order does not matter: mapping the sorted keys of a well-formed map
gives the same list for every order of its entries. -/
theorem sorted_keys_map_congr {β γ : Type} [Inhabited β] {m₁ m₂ : GoMap β} (h : m₁.Perm m₂)
    (hwf : m₂.WF) (keep : String → β → Bool) (mk : String → β → γ) :
    ((sortStrings m₁.rangeKeys).filter (fun n => keep n (m₁.get n))).map
        (fun n => mk n (m₁.get n)) =
      ((sortStrings m₂.rangeKeys).filter (fun n => keep n (m₂.get n))).map
        (fun n => mk n (m₂.get n)) := by
  have hk : sortStrings m₁.rangeKeys = sortStrings m₂.rangeKeys :=
    sortStrings_congr (h.map Prod.fst)
  rw [hk]
  have hmem : ∀ n ∈ sortStrings m₂.rangeKeys, m₁.get n = m₂.get n := fun n hn =>
    GoMap.get_congr h hwf ((sortStrings_perm _).mem_iff.mp hn)
  have hf : List.filter (fun n => keep n (m₁.get n)) (sortStrings m₂.rangeKeys) =
      List.filter (fun n => keep n (m₂.get n)) (sortStrings m₂.rangeKeys) := by
    apply List.filter_congr
    intro n hn
    rw [hmem n hn]
  rw [hf]
  apply List.map_congr_left
  intro n hn
  rw [hmem n (List.mem_of_mem_filter hn)]

/-- C8: for every well-formed map from names to range tables,
`rangeTablesToCases` returns exactly one case per entry whose table is not
`unicode.Noncharacter_Code_Point` and none for that table, in strictly
ascending order of table name, whatever the iteration order of the map; and
`sequencesToCases` and `sequencesToLinearCases` return exactly one case per map
entry, in strictly ascending name order, whatever the iteration order. -/
theorem cases_one_per_entry_sorted (ncp : RangeTablePtr) (pfx : String)
    (tables : GoMap RangeTablePtr) (sequences : GoMap (List String))
    (ht : tables.WF) (hs : sequences.WF) :
    ((rangeTablesToCases ncp pfx tables).Perm
        ((tables.filter (fun e => !decide (e.2 = ncp))).map
          (fun e => NewRangeTableCase pfx e.1 e.2)) ∧
      (∀ c ∈ rangeTablesToCases ncp pfx tables, ∀ name, c ≠ NewRangeTableCase pfx name ncp) ∧
      (rangeTablesToCases ncp pfx tables).Pairwise (fun a b => StrLt a.name b.name) ∧
      ∀ tables' : GoMap RangeTablePtr, tables'.Perm tables →
        rangeTablesToCases ncp pfx tables' = rangeTablesToCases ncp pfx tables) ∧
    ((sequencesToCases pfx sequences).Perm
        (sequences.map (fun e => NewBinarySearchSeqCase pfx e.1 e.2)) ∧
      (sequencesToCases pfx sequences).Pairwise (fun a b => StrLt a.name b.name) ∧
      ∀ sequences' : GoMap (List String), sequences'.Perm sequences →
        sequencesToCases pfx sequences' = sequencesToCases pfx sequences) ∧
    ((sequencesToLinearCases pfx sequences).Perm
        (sequences.map (fun e => NewSeqCase pfx e.1 e.2 true)) ∧
      (sequencesToLinearCases pfx sequences).Pairwise (fun a b => StrLt a.name b.name) ∧
      ∀ sequences' : GoMap (List String), sequences'.Perm sequences →
        sequencesToLinearCases pfx sequences' = sequencesToLinearCases pfx sequences) := by
  have hperm := sorted_keys_map_perm tables ht (fun _ rt => !decide (rt = ncp))
    (fun n rt => NewRangeTableCase pfx n rt)
  have hst : (sortStrings tables.rangeKeys).Pairwise StrLt := sortStrings_strict ht
  have hss : (sortStrings sequences.rangeKeys).Pairwise StrLt := sortStrings_strict hs
  refine ⟨⟨?_, ?_, ?_, ?_⟩, ⟨?_, ?_, ?_⟩, ⟨?_, ?_, ?_⟩⟩
  · rw [rangeTablesToCases_eq]; exact hperm
  · intro c hc name heq
    rw [rangeTablesToCases_eq] at hc
    have hc2 := hperm.mem_iff.mp hc
    obtain ⟨e, he, hec⟩ := List.mem_map.mp hc2
    have hne := (List.mem_filter.mp he).2
    rw [heq] at hec
    simp only [NewRangeTableCase, Case.rangeTable.injEq] at hec
    simp [hec.2.2] at hne
  · rw [rangeTablesToCases_eq, List.pairwise_map]
    exact (hst.sublist (List.filter_sublist _)).imp (fun h => h)
  · intro tables' hp
    rw [rangeTablesToCases_eq, rangeTablesToCases_eq]
    exact sorted_keys_map_congr hp ht (fun _ rt => !decide (rt = ncp))
      (fun n rt => NewRangeTableCase pfx n rt)
  · rw [sequencesToCases_eq]
    have := sorted_keys_map_perm sequences hs (fun _ _ => true)
      (fun n sq => NewBinarySearchSeqCase pfx n sq)
    simpa using this
  · rw [sequencesToCases_eq, List.pairwise_map]
    exact hss.imp (fun h => h)
  · intro sequences' hp
    rw [sequencesToCases_eq, sequencesToCases_eq]
    have := sorted_keys_map_congr hp hs (fun _ _ => true)
      (fun n sq => NewBinarySearchSeqCase pfx n sq)
    simpa using this
  · rw [sequencesToLinearCases_eq]
    have := sorted_keys_map_perm sequences hs (fun _ _ => true)
      (fun n sq => NewSeqCase pfx n sq true)
    simpa using this
  · rw [sequencesToLinearCases_eq, List.pairwise_map]
    exact hss.imp (fun h => h)
  · intro sequences' hp
    rw [sequencesToLinearCases_eq, sequencesToLinearCases_eq]
    have := sorted_keys_map_congr hp hs (fun _ _ => true)
      (fun n sq => NewSeqCase pfx n sq true)
    simpa using this

/-- A run of `cases_one_per_entry_sorted` on the sample property tables, one of
which is the noncharacter table, and the sample sequences. -/
theorem cases_one_per_entry_sorted_witness :
    Sample.unicodeData.Properties.WF ∧ Sample.sequences.WF ∧
    (rangeTablesToCases 99 "Unicode properties: " Sample.unicodeData.Properties).Perm
      ((Sample.unicodeData.Properties.filter (fun e => !decide (e.2 = 99))).map
        (fun e => NewRangeTableCase "Unicode properties: " e.1 e.2)) ∧
    rangeTablesToCases 99 "Unicode properties: " Sample.unicodeData.Properties =
      [.rangeTable "Unicode properties: " "Dash" 20] ∧
    (sequencesToCases "Unicode emoji sequences: " Sample.sequences).map Case.name =
      ["continuation", "overlong"] :=
  ⟨by decide, by decide,
    (cases_one_per_entry_sorted 99 "Unicode properties: " Sample.unicodeData.Properties
      Sample.sequences (by decide) (by decide)).1.1,
    by decide, by decide⟩

end Suite

namespace Cmd

open Suite

/-- The case list of `selectCases` is the concatenation of the lists of the
families it appends, in the order of `selectedFamilies`. -/
theorem selectCases_eq_flatMap {α : Type} (f : SuiteFlags)
    (fileSize fileCount categories properties scripts emoji invalid : List α) :
    selectCases f fileSize fileCount categories properties scripts emoji invalid =
      (selectedFamilies f).flatMap
        (familyCases fileSize fileCount categories properties scripts emoji invalid) := by
  rcases f with ⟨cos, size, sizeMax, count, countMax, u, uc, us, up, ue, ui, dry⟩
  cases size <;> cases count <;> cases u <;> cases uc <;> cases us <;> cases up <;> cases ue <;>
    cases ui <;>
    simp [selectCases, selectedFamilies, appendAllUnicode, familyCases, List.flatMap]

/-- The count of each family in `selectedFamilies`, for flags given by their
eight selectors. -/
theorem selectedFamilies_count_flagsOf :
    ∀ (size count u uc us up ue ui : Bool),
      ∀ fam ∈ [Family.fileSize, .fileCount, .unicodeCategories, .unicodeProperties,
          .unicodeScripts, .unicodeEmoji, .unicodeInvalid],
        (selectedFamilies (flagsOf size count u uc us up ue ui)).count fam =
          if selected (flagsOf size count u uc us up ue ui) fam then 1 else 0 := by
  decide

/-- Each family occurs in `selectedFamilies` once when it is selected and not
at all otherwise. -/
theorem selectedFamilies_count (f : SuiteFlags) (fam : Family) :
    (selectedFamilies f).count fam = if selected f fam then 1 else 0 :=
  selectedFamilies_count_flagsOf f.Size f.Count f.Unicode f.UnicodeCategories f.UnicodeScripts
    f.UnicodeProperties f.UnicodeEmoji f.UnicodeInvalid fam (by cases fam <;> simp)

/-- C3: for every combination of the selector flags, the case list of
`runSuite` is the concatenation of the lists of the families it appends, each
of the seven families being appended exactly once if it is selected (no selector
flag set, or its own flag set, or `--unicode` set for a Unicode family) and not
at all otherwise; with no selector flag set the list is
`FileSizeCases ++ FileCountCases ++ AllUnicodeCases`, and with `--unicode` set
the five Unicode families are appended once each, whatever the sub-flags. -/
theorem runSuite_families (env : Env) (f : SuiteFlags) (sizeMax : Int) (countMax : Nat) :
    suiteCases env f sizeMax countMax =
      (selectedFamilies f).flatMap
        (familyCases (env.FileSizeCases sizeMax) (env.FileCountCases countMax)
          (UnicodeCategoriesCases env.unicode) (UnicodePropertiesCases env.unicode)
          (UnicodeScriptsCases env.unicode) (UnicodeEmojiCases env.unicode)
          (UnicodeInvalidCases env.unicode)) ∧
    (∀ fam, (selectedFamilies f).count fam = if selected f fam then 1 else 0) ∧
    suiteCases env
        { f with Size := false, Count := false, Unicode := false, UnicodeCategories := false,
                 UnicodeScripts := false, UnicodeProperties := false, UnicodeEmoji := false,
                 UnicodeInvalid := false } sizeMax countMax =
      env.FileSizeCases sizeMax ++ env.FileCountCases countMax ++ AllUnicodeCases env.unicode ∧
    suiteCases env { f with Unicode := true } sizeMax countMax =
      (if f.Size then env.FileSizeCases sizeMax else []) ++
      (if f.Count then env.FileCountCases countMax else []) ++ AllUnicodeCases env.unicode := by
  refine ⟨selectCases_eq_flatMap f _ _ _ _ _ _ _, selectedFamilies_count f, ?_, ?_⟩
  · simp [suiteCases, selectCases, AllUnicodeCases]
  · rcases f with ⟨cos, size, sizeMax, count, countMax, u, uc, us, up, ue, ui, dry⟩
    cases size <;> cases count <;> simp [suiteCases, selectCases, AllUnicodeCases]

/-- C6: the branch `f.CountMax < 0` of `runSuite` is taken for no value of the
`uint64` field `CountMax`: the comparison is false for every flag record, no
record takes the branch, and the `countMax` handed to `FileCountCases` is
always the flag value itself. -/
theorem countMax_branch_never_taken :
    (∀ f : SuiteFlags, countMaxIsNegative f = false ∧ countMaxOf f = f.CountMax % 2 ^ 64) ∧
    (¬ ∃ f : SuiteFlags, countMaxIsNegative f = true) ∧
    countMaxOf { Sample.suiteFlags with CountMax := 18446744073709551615 } = MaxUint64 ∧
    countMaxIsNegative { Sample.suiteFlags with CountMax := 18446744073709551615 } = false := by
  refine ⟨fun f => ⟨by simp [countMaxIsNegative], by simp [countMaxOf, countMaxIsNegative]⟩, ?_,
    by decide, by decide⟩
  rintro ⟨f, hf⟩
  simp [countMaxIsNegative] at hf

/-- C1: in `runSuite` with `DryRun` false, whenever the connection check (the
`CreateRetrieveVerifyDelete` of the default `Crvd`) is run and returns an error,
`runSuite` returns the error `connection check failed: ...` wrapping it, and
its trace holds the check alone: no suite is constructed or executed. -/
theorem runSuite_connection_check_failed (env : Env) (bucketStr : String) (f : SuiteFlags)
    (c : Crvd) (e : String) (hdry : f.DryRun = false)
    (hrun : Event.createRetrieveVerifyDelete c ∈ (runSuite env bucketStr f).trace)
    (herr : env.CreateRetrieveVerifyDelete c = some e) :
    (runSuite env bucketStr f).err = some ("connection check failed: " ++ e) ∧
    (runSuite env bucketStr f).trace = [.newCrvd c, .createRetrieveVerifyDelete c] ∧
    (∀ ev ∈ (runSuite env bucketStr f).trace, ev.isSuite = false) := by
  rcases hp : env.ParseSizeMax f.SizeMax with ⟨sizeMax, perr⟩
  rcases ht : env.Target f.toCosFlags bucketStr with ⟨target, terr⟩
  cases perr with
  | some pe => simp [runSuite, hp] at hrun
  | none =>
    cases terr with
    | some te => simp [runSuite, hp, ht] at hrun
    | none =>
      cases hc : env.CreateRetrieveVerifyDelete (NewDefaultCrvd env target "") with
      | none =>
        simp [runSuite, hp, ht, hdry, hc, runSuite.execute] at hrun
        rw [hrun] at herr
        rw [hc] at herr
        exact absurd herr (by simp)
      | some e2 =>
        simp [runSuite, hp, ht, hdry, hc] at hrun
        rw [hrun] at herr
        rw [hc] at herr
        injection herr with he
        subst he
        simp [runSuite, hp, ht, hdry, hc, hrun, Event.isSuite]

/-- A run of `runSuite_connection_check_failed` on a backend that refuses the
object of the connection check. -/
theorem runSuite_connection_check_failed_witness :
    Sample.suiteFlags.DryRun = false ∧
    Event.createRetrieveVerifyDelete (NewDefaultCrvd Sample.envCheckFails 1 "") ∈
      (runSuite Sample.envCheckFails "s3://bucket/" Sample.suiteFlags).trace ∧
    Sample.envCheckFails.CreateRetrieveVerifyDelete (NewDefaultCrvd Sample.envCheckFails 1 "") =
      some "403 Forbidden" ∧
    (runSuite Sample.envCheckFails "s3://bucket/" Sample.suiteFlags).err =
      some ("connection check failed: " ++ "403 Forbidden") :=
  ⟨by decide, by decide, by decide,
    (runSuite_connection_check_failed Sample.envCheckFails "s3://bucket/" Sample.suiteFlags
      (NewDefaultCrvd Sample.envCheckFails 1 "") "403 Forbidden"
      (by decide) (by decide) (by decide)).1⟩

/-- In dry-run mode `runSuite` neither makes a `Crvd` nor runs one, whatever the
flags and whatever its collaborators return. -/
theorem runSuite_dry_run_no_crvd (env : Env) (bucketStr : String) (f : SuiteFlags)
    (hdry : f.DryRun = true) :
    ∀ ev ∈ (runSuite env bucketStr f).trace, ev.isCrvdRun = false ∧ ∀ c, ev ≠ .newCrvd c := by
  rcases hp : env.ParseSizeMax f.SizeMax with ⟨sizeMax, perr⟩
  rcases ht : env.Target f.toCosFlags bucketStr with ⟨target, terr⟩
  cases perr with
  | some pe => simp [runSuite, hp]
  | none =>
    cases terr with
    | some te => simp [runSuite, hp, ht]
    | none => simp [runSuite, hp, ht, hdry, runSuite.execute, Event.isCrvdRun]

/-- C2: in dry-run mode, for every flag combination whose `--size-max` parses
and whose bucket URL gives a target, `runSuite` performs no operation against
the target: no `Crvd` is made or run, so the connection check
`CreateRetrieveVerifyDelete` is not invoked, and the only calls are the
construction of the suite with the dry-run flag set and its execution, over the
full case list; `runSuite` returns nil. -/
theorem runSuite_dry_run (env : Env) (bucketStr : String) (f : SuiteFlags)
    (hdry : f.DryRun = true)
    (hparse : (env.ParseSizeMax f.SizeMax).2 = none)
    (htarget : (env.Target f.toCosFlags bucketStr).2 = none) :
    (∀ ev ∈ (runSuite env bucketStr f).trace, ev.isCrvdRun = false ∧ ∀ c, ev ≠ .newCrvd c) ∧
    runSuite env bucketStr f =
      { trace :=
          [.newSuite (suiteCases env f (env.ParseSizeMax f.SizeMax).1 (countMaxOf f))
              (env.Target f.toCosFlags bucketStr).1 (env.LogLevel f.toCosFlags) true,
           .suiteExecute (suiteCases env f (env.ParseSizeMax f.SizeMax).1 (countMaxOf f))
              (env.Target f.toCosFlags bucketStr).1 (env.LogLevel f.toCosFlags) true],
        err := none } := by
  refine ⟨runSuite_dry_run_no_crvd env bucketStr f hdry, ?_⟩
  rcases hp : env.ParseSizeMax f.SizeMax with ⟨sizeMax, perr⟩
  rcases ht : env.Target f.toCosFlags bucketStr with ⟨target, terr⟩
  rw [hp] at hparse
  rw [ht] at htarget
  simp only at hparse htarget
  subst hparse
  subst htarget
  simp [runSuite, hp, ht, hdry, runSuite.execute]

/-- A run of `runSuite_dry_run` on the sample collaborators, with no selector
flag set: the trace holds the construction and the execution of the suite over
all cases, and nothing else. -/
theorem runSuite_dry_run_witness :
    ({ Sample.suiteFlags with DryRun := true } : SuiteFlags).DryRun = true ∧
    (Sample.env.ParseSizeMax ({ Sample.suiteFlags with DryRun := true } : SuiteFlags).SizeMax).2
      = none ∧
    (Sample.env.Target ({ Sample.suiteFlags with DryRun := true } : SuiteFlags).toCosFlags
      "s3://bucket/").2 = none ∧
    runSuite Sample.env "s3://bucket/" { Sample.suiteFlags with DryRun := true } =
      { trace :=
          [.newSuite (suiteCases Sample.env { Sample.suiteFlags with DryRun := true } 1024 16)
              1 0 true,
           .suiteExecute (suiteCases Sample.env { Sample.suiteFlags with DryRun := true } 1024 16)
              1 0 true],
        err := none } :=
  ⟨rfl, by decide, by decide,
    (runSuite_dry_run Sample.env "s3://bucket/" { Sample.suiteFlags with DryRun := true } rfl
      (by decide) (by decide)).2⟩

/-- C5, the code at a failing input: `crvd` never reads the error of `f.Target`
(its outcome is the same when that error is replaced by nil), and for a bucket
URL from which no target can be made it goes on to build a `Crvd` on the
returned target, runs `CreateRetrieveVerifyDelete` on it and returns what that
call returns, here nil. -/
theorem crvd_drops_target_error :
    (∀ (env : Env) (bucketStr : String) (f : crvdFlags),
      crvd env bucketStr f =
        crvd { env with Target := fun c s => ((env.Target c s).1, none) } bucketStr f) ∧
    (Sample.env.Target Sample.crvdZero.toCosFlags "ftp://bucket/").2 =
      some "unsupported scheme" ∧
    crvd Sample.env "ftp://bucket/" Sample.crvdZero =
      { trace := [.newCrvd (NewCrvd 0 "" 0 0), .createRetrieveVerifyDelete (NewCrvd 0 "" 0 0)],
        err := none } := by
  refine ⟨fun env bucketStr f => rfl, by decide, by decide⟩

/-- With a unit in the size, a nil error of `ContentLength` comes with a length
in `[0, math.MaxInt64]`. -/
theorem contentLength_unit_range (env : Env) (f : crvdFlags)
    (hunit : IndexFunc f.Size (IsLetter env) ≠ -1)
    (hnil : (crvdFlags.ContentLength env f).2 = none) :
    0 ≤ (crvdFlags.ContentLength env f).1 ∧ (crvdFlags.ContentLength env f).1 ≤ MaxInt64 := by
  rcases hb : env.ToBytes f.Size with ⟨bytes, err⟩
  have hcl : crvdFlags.ContentLength env f =
      if err.isNone && decide ((bytes : Int) > MaxInt64) then
        (0, some ("specified size " ++ toString bytes ++ " bytes exceeds maximum " ++
          toString MaxInt64))
      else (int64OfUint64 bytes, err) := by
    simp only [crvdFlags.ContentLength, beq_iff_eq, hunit, if_false, hb]
  rw [hcl] at hnil ⊢
  cases err with
  | some e =>
    simp at hnil
  | none =>
    by_cases hbig : (bytes : Int) > MaxInt64
    · simp [hbig] at hnil
    · simp only [Option.isNone_none, Bool.true_and, hbig, decide_False, Bool.false_eq_true,
        if_false, int64OfUint64]
      unfold MaxInt64 at hbig ⊢
      have hlt : bytes % 2 ^ 64 < 2 ^ 63 := by omega
      rw [if_pos hlt]
      omega

/-- C4, the code at a failing input: for the size `-1`, a signed decimal
integer with no unit, `ContentLength` returns the length `-1` with a nil error,
whatever the other flags; so does the smallest `int64`. -/
theorem contentLength_accepts_negative (env : Env) (f : crvdFlags) :
    crvdFlags.ContentLength env { f with Size := "-1" } = (-1, none) ∧
    crvdFlags.ContentLength env { f with Size := "-9223372036854775808" } =
      (-9223372036854775808, none) ∧
    (crvdFlags.ContentLength env { f with Size := "9223372036854775808" }).2.isSome = true ∧
    crvdFlags.ContentLength env { f with Size := "9223372036854775807" } =
      (9223372036854775807, none) := by
  refine ⟨?_, ?_, ?_, ?_⟩ <;>
    simp [crvdFlags.ContentLength, IndexFunc, IndexFunc.go, IsLetter, ParseInt, digitsValue,
      Char.isAlpha, Char.isUpper, Char.isLower, Char.isDigit, Char.utf8Size]

/-- The cases `rangeTablesToCases` returns are in non-decreasing label order. -/
theorem rangeTablesToCases_labels_sorted (ncp : RangeTablePtr) (pfx : String)
    (tables : GoMap RangeTablePtr) :
    (rangeTablesToCases ncp pfx tables).Pairwise (fun a b => StrLe a.label b.label) := by
  rw [rangeTablesToCases_eq, List.pairwise_map]
  refine ((sortStrings_sorted tables.rangeKeys).sublist (List.filter_sublist _)).imp ?_
  intro a b hab
  simpa [StrLe, NewRangeTableCase, Case.label, strLe_append_left] using hab

/-- The cases `sequencesToCases` returns are in non-decreasing label order. -/
theorem sequencesToCases_labels_sorted (pfx : String) (sequences : GoMap (List String)) :
    (sequencesToCases pfx sequences).Pairwise (fun a b => StrLe a.label b.label) := by
  rw [sequencesToCases_eq, List.pairwise_map]
  refine (sortStrings_sorted sequences.rangeKeys).imp ?_
  intro a b hab
  simpa [StrLe, NewBinarySearchSeqCase, Case.label, strLe_append_left] using hab

/-- The cases `sequencesToLinearCases` returns are in non-decreasing label
order. -/
theorem sequencesToLinearCases_labels_sorted (pfx : String) (sequences : GoMap (List String)) :
    (sequencesToLinearCases pfx sequences).Pairwise (fun a b => StrLe a.label b.label) := by
  rw [sequencesToLinearCases_eq, List.pairwise_map]
  refine (sortStrings_sorted sequences.rangeKeys).imp ?_
  intro a b hab
  simpa [StrLe, NewSeqCase, Case.label, strLe_append_left] using hab

/-- C7, the claim as stated, fails on a small excerpt of the Unicode tables:
the list of `AllUnicodeCases` passes from `Unicode scripts: Latin` to
`Unicode emoji properties: Emoji`, a smaller label, so neither it nor the list
`runSuite` builds with `--unicode` is sorted by label; and the list built with
the five sub-flags has the scripts before the properties, where the list built
with `--unicode` has the properties first. -/
theorem suite_cases_not_sorted_by_label :
    (AllUnicodeCases Sample.unicodeData).map Case.label =
      ["Unicode categories: L", "Unicode categories: Lu", "Unicode properties: Dash",
       "Unicode scripts: Greek", "Unicode scripts: Latin", "Unicode emoji properties: Emoji",
       "Unicode emoji properties: Emoji_Presentation",
       "Unicode emoji sequences: Emoji_Keycap_Sequence"] ∧
    ¬ (AllUnicodeCases Sample.unicodeData).Pairwise (fun a b => StrLe a.label b.label) ∧
    ¬ (suiteCases Sample.env { Sample.suiteFlags with Unicode := true } 1024 16).Pairwise
        (fun a b => StrLe a.label b.label) ∧
    (suiteCases Sample.env
        { Sample.suiteFlags with
            UnicodeCategories := true, UnicodeScripts := true, UnicodeProperties := true,
            UnicodeEmoji := true, UnicodeInvalid := true } 1024 16).map Case.label =
      ["Unicode categories: L", "Unicode categories: Lu", "Unicode scripts: Greek",
       "Unicode scripts: Latin", "Unicode properties: Dash", "Unicode emoji properties: Emoji",
       "Unicode emoji properties: Emoji_Presentation",
       "Unicode emoji sequences: Emoji_Keycap_Sequence"] ∧
    suiteCases Sample.env { Sample.suiteFlags with Unicode := true } 1024 16 ≠
      suiteCases Sample.env
        { Sample.suiteFlags with
            UnicodeCategories := true, UnicodeScripts := true, UnicodeProperties := true,
            UnicodeEmoji := true, UnicodeInvalid := true } 1024 16 := by
  refine ⟨by decide, by decide, by decide, by decide, by decide⟩

/-- C7, amended: the list of `AllUnicodeCases` is the concatenation of seven
blocks (categories, properties, scripts, emoji properties, emoji sequences,
invalid characters, invalid UTF-8 sequences), in that order; each block, being
the result of one call of `rangeTablesToCases`, `sequencesToCases` or
`sequencesToLinearCases`, is in non-decreasing label order; with `--unicode`
alone `runSuite` builds that list, and with the five sub-flags alone it builds
a list of the same cases. -/
theorem unicode_blocks_sorted_by_label (env : Env) (f : SuiteFlags) (sizeMax : Int)
    (countMax : Nat) :
    AllUnicodeCases env.unicode =
      rangeTablesToCases env.unicode.Noncharacter_Code_Point "Unicode categories: "
          env.unicode.Categories ++
        rangeTablesToCases env.unicode.Noncharacter_Code_Point "Unicode properties: "
          env.unicode.Properties ++
        rangeTablesToCases env.unicode.Noncharacter_Code_Point "Unicode scripts: "
          env.unicode.Scripts ++
        rangeTablesToCases env.unicode.Noncharacter_Code_Point "Unicode emoji properties: "
          (emojiPropertyTables env.unicode) ++
        sequencesToCases "Unicode emoji sequences: " (emojiSequenceTables env.unicode) ++
        rangeTablesToCases env.unicode.Noncharacter_Code_Point "Unicode invalid characters: "
          env.unicode.UnicodeInvalid ++
        sequencesToLinearCases "UTF8 invalid sequences: " env.unicode.UTF8InvalidSequences ∧
    (∀ (ncp : RangeTablePtr) (pfx : String) (tables : GoMap RangeTablePtr),
      (rangeTablesToCases ncp pfx tables).Pairwise (fun a b => StrLe a.label b.label)) ∧
    (∀ (pfx : String) (sequences : GoMap (List String)),
      (sequencesToCases pfx sequences).Pairwise (fun a b => StrLe a.label b.label)) ∧
    (∀ (pfx : String) (sequences : GoMap (List String)),
      (sequencesToLinearCases pfx sequences).Pairwise (fun a b => StrLe a.label b.label)) ∧
    suiteCases env
        { f with Size := false, Count := false, Unicode := true } sizeMax countMax =
      AllUnicodeCases env.unicode ∧
    (suiteCases env
        { f with Size := false, Count := false, Unicode := false, UnicodeCategories := true,
                 UnicodeScripts := true, UnicodeProperties := true, UnicodeEmoji := true,
                 UnicodeInvalid := true } sizeMax countMax).Perm
      (AllUnicodeCases env.unicode) := by
  refine ⟨?_, rangeTablesToCases_labels_sorted, sequencesToCases_labels_sorted,
    sequencesToLinearCases_labels_sorted, ?_, ?_⟩
  · simp [AllUnicodeCases, appendAllUnicode, UnicodeCategoriesCases, UnicodePropertiesCases,
      UnicodeScriptsCases, UnicodeEmojiCases, UnicodeEmojiPropertyCases,
      UnicodeEmojiSequenceCases, UnicodeInvalidCases]
  · simp [suiteCases, selectCases, AllUnicodeCases]
  · simp only [suiteCases, selectCases, AllUnicodeCases, appendAllUnicode, Bool.or_true,
      Bool.or_false, Bool.not_true, Bool.not_false, if_true, if_false, List.nil_append,
      Bool.false_eq_true, Bool.or_self]
    simp only [List.append_assoc]
    refine List.Perm.append_left _ ?_
    rw [← List.append_assoc, ← List.append_assoc (UnicodePropertiesCases env.unicode)]
    exact List.Perm.append_right _ List.perm_append_comm

end Cmd

end Cos
